import Mathlib

/-!
# Verification of the Luthier dynamic binary instrumentation core

This file gives a shallow embedding, in Lean 4, of the parts of the Luthier
repository that its specification makes claims about, and settles each claim
against the embedded code.

The embedding follows the C++ sources:
* `luthier/HSA/AqlPacket.h` — the AQL packet POD wrapper and its typed
  accessors;
* `luthier/HSA/LoadedCodeObjectSymbol.h` — symbol equality, hashing, cloning;
* the `CodeLifter` header (its inline, templated `disassemble` member) — the
  disassembly loop that builds `hsa::Instr` records, evaluates branches and
  populates the direct-branch target set, together with its cache discipline;
* `luthier/Tooling/ToolExecutableLoader.h` — the inline
  `insertInstrumentedKernelIntoMap` and the preset map it maintains;
* `luthier/Tooling/InstrumentationTask.h` — the hook-insertion queue.

Operations whose implementations are not part of the sources (only their
declarations are) are modelled from the specification; each such definition
carries a doc comment starting with `Modelled from the spec:`.

Machine integers are modelled as `Nat` with explicit reduction modulo `2^64`
where the C++ code relies on `uint64_t` arithmetic.
-/

namespace Luthier

/-! ## 64-bit arithmetic helpers (uint64_t semantics) -/

/-- `2^64`, the modulus of `uint64_t` arithmetic. -/
def u64Mod : Nat := 2 ^ 64

/-- `uint64_t` addition: `(a + b) mod 2^64`. -/
def add64 (a b : Nat) : Nat := (a + b) % u64Mod

/-- `uint64_t` subtraction: `(a - b) mod 2^64` with wrap-around. -/
def sub64 (a b : Nat) : Nat := (a + u64Mod - b % u64Mod) % u64Mod

/-! ## HSA AQL packets (`luthier/HSA/AqlPacket.h`)

The constants below come from `hsa.h`: `HSA_PACKET_HEADER_TYPE = 8`,
`HSA_PACKET_HEADER_WIDTH_TYPE = 8`, and the members of `hsa_packet_type_t`. -/

def HSA_PACKET_HEADER_TYPE : Nat := 8

def HSA_PACKET_HEADER_WIDTH_TYPE : Nat := 8

def HSA_PACKET_TYPE_VENDOR_SPECIFIC : Nat := 0

def HSA_PACKET_TYPE_INVALID : Nat := 1

def HSA_PACKET_TYPE_KERNEL_DISPATCH : Nat := 2

def HSA_PACKET_TYPE_BARRIER_AND : Nat := 3

def HSA_PACKET_TYPE_AGENT_DISPATCH : Nat := 4

def HSA_PACKET_TYPE_BARRIER_OR : Nat := 5

/-- The generic AQL packet of `luthier::hsa::AqlPacket`: a 16-bit header and
62 bytes of body, the body kept abstract as a single value. -/
structure AqlPacket where
  header : Nat
  body : Nat
deriving DecidableEq, Repr

/-- `AqlPacket::getPacketType`: extracts the type field from the header,
`(Packet.Header >> HSA_PACKET_HEADER_TYPE) & ((1 << HSA_PACKET_HEADER_WIDTH_TYPE) - 1)`. -/
def getPacketType (p : AqlPacket) : Nat :=
  (p.header >>> HSA_PACKET_HEADER_TYPE) &&& ((1 <<< HSA_PACKET_HEADER_WIDTH_TYPE) - 1)

/-- `AqlPacket::asKernelDispatch`: a (non-null) view of the packet's contents
when the packet type is `HSA_PACKET_TYPE_KERNEL_DISPATCH`, null otherwise.
A returned pointer to the packet's contents is modelled as `some p`. -/
def asKernelDispatch (p : AqlPacket) : Option AqlPacket :=
  if getPacketType p = HSA_PACKET_TYPE_KERNEL_DISPATCH then some p else none

/-- `AqlPacket::asAMDVendor`. -/
def asAMDVendor (p : AqlPacket) : Option AqlPacket :=
  if getPacketType p = HSA_PACKET_TYPE_VENDOR_SPECIFIC then some p else none

/-- `AqlPacket::asBarrierAnd`. -/
def asBarrierAnd (p : AqlPacket) : Option AqlPacket :=
  if getPacketType p = HSA_PACKET_TYPE_BARRIER_AND then some p else none

/-- `AqlPacket::asBarrierOr`. -/
def asBarrierOr (p : AqlPacket) : Option AqlPacket :=
  if getPacketType p = HSA_PACKET_TYPE_BARRIER_OR then some p else none

/-- `AqlPacket::asAgentDispatch`. -/
def asAgentDispatch (p : AqlPacket) : Option AqlPacket :=
  if getPacketType p = HSA_PACKET_TYPE_AGENT_DISPATCH then some p else none

/-- Generic helper: an accessor defined by an `if` on the packet type returns
`some p` exactly when the type matches, and `none` exactly when it does not. -/
theorem accessor_spec (p : AqlPacket) (t : Nat) :
    ((if getPacketType p = t then some p else none) = some p ↔ getPacketType p = t) ∧
    ((if getPacketType p = t then (some p : Option AqlPacket) else none) = none ↔
      getPacketType p ≠ t) := by
  by_cases h : getPacketType p = t <;> simp [h]

/-- C9: for every `AqlPacket` value `P` and every typed accessor, the accessor
returns (a view of) `P`'s contents if and only if `getPacketType()` extracted
from `P`'s header equals the corresponding HSA packet type, and returns null
(`none`) otherwise. -/
theorem aql_packet_accessors_iff_type (p : AqlPacket) :
    ((asKernelDispatch p = some p ↔ getPacketType p = HSA_PACKET_TYPE_KERNEL_DISPATCH) ∧
      (asKernelDispatch p = none ↔ getPacketType p ≠ HSA_PACKET_TYPE_KERNEL_DISPATCH)) ∧
    ((asAMDVendor p = some p ↔ getPacketType p = HSA_PACKET_TYPE_VENDOR_SPECIFIC) ∧
      (asAMDVendor p = none ↔ getPacketType p ≠ HSA_PACKET_TYPE_VENDOR_SPECIFIC)) ∧
    ((asBarrierAnd p = some p ↔ getPacketType p = HSA_PACKET_TYPE_BARRIER_AND) ∧
      (asBarrierAnd p = none ↔ getPacketType p ≠ HSA_PACKET_TYPE_BARRIER_AND)) ∧
    ((asBarrierOr p = some p ↔ getPacketType p = HSA_PACKET_TYPE_BARRIER_OR) ∧
      (asBarrierOr p = none ↔ getPacketType p ≠ HSA_PACKET_TYPE_BARRIER_OR)) ∧
    ((asAgentDispatch p = some p ↔ getPacketType p = HSA_PACKET_TYPE_AGENT_DISPATCH) ∧
      (asAgentDispatch p = none ↔ getPacketType p ≠ HSA_PACKET_TYPE_AGENT_DISPATCH)) :=
  ⟨accessor_spec p _, accessor_spec p _, accessor_spec p _, accessor_spec p _,
    accessor_spec p _⟩

/-! ## Loaded code object symbols (`luthier/HSA/LoadedCodeObjectSymbol.h`) -/

/-- `LoadedCodeObjectSymbol::SymbolKind`. -/
inductive SymbolKind
  | SK_KERNEL
  | SK_DEVICE_FUNCTION
  | SK_VARIABLE
  | SK_EXTERNAL
deriving DecidableEq, Repr

/-- Numeric value of a `SymbolKind`, as used when it is fed to
`llvm::hash_combine`. -/
def SymbolKind.val : SymbolKind → Nat
  | .SK_KERNEL => 0
  | .SK_DEVICE_FUNCTION => 1
  | .SK_VARIABLE => 2
  | .SK_EXTERNAL => 3

/-- `llvm::object::DataRefImpl`: a union of `struct { uint32_t a, b; } d` and
`uintptr_t p` over the same eight bytes (64-bit platform); `operator==` is a
`memcmp` of the union, so the union is modelled by its raw eight-byte value.
`p` is the whole value, `d.a` its low and `d.b` its high 32 bits. -/
structure DataRefImpl where
  raw : Nat
deriving DecidableEq, Repr

def DataRefImpl.p (r : DataRefImpl) : Nat := r.raw

def DataRefImpl.dA (r : DataRefImpl) : Nat := r.raw % 2 ^ 32

def DataRefImpl.dB (r : DataRefImpl) : Nat := r.raw / 2 ^ 32

/-- `llvm::object::ELFSymbolRef` as carried by `LoadedCodeObjectSymbol`:
a `DataRefImpl` plus the owning object file; `BasicSymbolRef::operator==`
compares both. -/
structure ELFSymbolRef where
  symbolPimpl : DataRefImpl
  owningObject : Nat
deriving DecidableEq, Repr

/-- `BasicSymbolRef::operator==`: `SymbolPimpl == Other.SymbolPimpl &&
OwningObject == Other.OwningObject`. -/
def elfSymbolRefEq (a b : ELFSymbolRef) : Bool :=
  a.symbolPimpl.raw == b.symbolPimpl.raw && a.owningObject == b.owningObject

/-- `luthier::hsa::LoadedCodeObjectSymbol`: the backing LCO handle, the parsed
storage ELF (by reference identity), the ELF symbol reference, the symbol kind,
and the optional `hsa_executable_symbol_t` handle. -/
structure LoadedCodeObjectSymbol where
  backingLCO : Nat
  storageELF : Nat
  symbol : ELFSymbolRef
  kind : SymbolKind
  executableSymbol : Option Nat
deriving DecidableEq, Repr

/-- `LoadedCodeObjectSymbol::operator==`: compares the ELF symbol, the backing
LCO handle and the kind; then, if this symbol has an executable symbol, the
other must have one with the same handle, otherwise the other must have none. -/
def symbolEq (a b : LoadedCodeObjectSymbol) : Bool :=
  let out := elfSymbolRefEq a.symbol b.symbol &&
    a.backingLCO == b.backingLCO && a.kind == b.kind
  match a.executableSymbol with
  | some h =>
    out && (match b.executableSymbol with
            | some h2 => h == h2
            | none => false)
  | none => out && b.executableSymbol.isNone

/-- `LoadedCodeObjectSymbol::hash`: `llvm::hash_combine(BackingLCO.handle,
Raw.p, Raw.d.a, Raw.d.b, Kind, ExecutableSymbol ? handle : 0)`.
`llvm::hash_combine` itself is external library code, so it is passed in as an
arbitrary combining function `hc`. -/
def symbolHash (hc : List Nat → Nat) (a : LoadedCodeObjectSymbol) : Nat :=
  hc [a.backingLCO, a.symbol.symbolPimpl.p, a.symbol.symbolPimpl.dA,
      a.symbol.symbolPimpl.dB, a.kind.val, a.executableSymbol.getD 0]

/-- `LoadedCodeObjectSymbol::clone`: constructs a new symbol from
`BackingLCO`, `StorageELF`, `Symbol`, `Kind` and `ExecutableSymbol`. -/
def clone (a : LoadedCodeObjectSymbol) : LoadedCodeObjectSymbol :=
  ⟨a.backingLCO, a.storageELF, a.symbol, a.kind, a.executableSymbol⟩

theorem symbolEq_fields (a b : LoadedCodeObjectSymbol) (h : symbolEq a b = true) :
    a.symbol = b.symbol ∧ a.backingLCO = b.backingLCO ∧ a.kind = b.kind ∧
      a.executableSymbol = b.executableSymbol := by
  unfold symbolEq elfSymbolRefEq at h
  rcases a with ⟨al, ast, ⟨⟨araw⟩, aown⟩, ak, aex⟩
  rcases b with ⟨bl, bst, ⟨⟨braw⟩, bown⟩, bk, bex⟩
  cases aex <;> cases bex <;> simp_all

theorem symbolEq_refl (a : LoadedCodeObjectSymbol) : symbolEq a a = true := by
  unfold symbolEq elfSymbolRefEq
  cases h : a.executableSymbol <;> simp [h]

theorem clone_eq (a : LoadedCodeObjectSymbol) : clone a = a := rfl

/-- C10: if two `LoadedCodeObjectSymbol` values compare equal under
`operator==` then their `hash()` values are equal (for any combining function
standing for `llvm::hash_combine`); moreover a symbol's `clone()` compares
equal to it and hashes equally. -/
theorem symbol_eq_implies_hash_eq (hc : List Nat → Nat)
    (a b : LoadedCodeObjectSymbol) (h : symbolEq a b = true) :
    symbolHash hc a = symbolHash hc b ∧
      symbolEq (clone a) a = true ∧ symbolHash hc (clone a) = symbolHash hc a := by
  obtain ⟨hs, hl, hk, he⟩ := symbolEq_fields a b h
  refine ⟨?_, ?_, ?_⟩
  · unfold symbolHash
    rw [hs, hl, hk, he]
  · rw [clone_eq]; exact symbolEq_refl a
  · rw [clone_eq]

/-- Witness for C10 at a concrete pair of equal symbols. -/
theorem symbol_eq_implies_hash_eq_witness :
    symbolEq ⟨1, 7, ⟨⟨42⟩, 9⟩, .SK_KERNEL, some 5⟩
        ⟨1, 8, ⟨⟨42⟩, 9⟩, .SK_KERNEL, some 5⟩ = true ∧
      symbolHash List.sum ⟨1, 7, ⟨⟨42⟩, 9⟩, .SK_KERNEL, some 5⟩ =
        symbolHash List.sum ⟨1, 8, ⟨⟨42⟩, 9⟩, .SK_KERNEL, some 5⟩ :=
  ⟨by decide,
    (symbol_eq_implies_hash_eq List.sum ⟨1, 7, ⟨⟨42⟩, 9⟩, .SK_KERNEL, some 5⟩
      ⟨1, 8, ⟨⟨42⟩, 9⟩, .SK_KERNEL, some 5⟩ (by decide)).1⟩

/-! ## MC disassembly (`CodeLifter::disassemble`, templated inline member)

The MC layer's `disassemble(ISA, Code)` returns a vector of `llvm::MCInst`
and a vector containing the start address (offset) of each instruction; the
inline loop then walks these pairs, computing each record's load address and
size, evaluating branches and accumulating `hsa::Instr` records. -/

/-- An `llvm::MCInst` abstracted to its opcode and operand payload. -/
structure MCInst where
  opcode : Nat
  operands : List Int
deriving DecidableEq, Repr

/-- An `hsa::Instr` record: the MC instruction, its loaded device address and
its byte size, as constructed by `hsa::Instr(Inst, Symbol, Address, Size)`.
(The owning symbol is fixed per `disassemble` call and left implicit.) -/
structure Instr where
  inst : MCInst
  address : Nat
  size : Nat
deriving DecidableEq, Repr

/-- The target-dependent hooks the loop consults: `MII->get(opcode).isBranch()`
and the lifter's corrected `evaluateBranch(Inst, Address, Size, Target)`,
which yields `some target` exactly when it returns `true`. -/
structure DisasmContext where
  isBranch : MCInst → Bool
  evaluateBranch : MCInst → Nat → Nat → Option Nat

/-- The loop of `CodeLifter::disassemble` (the templated inline member):
starting from `PrevInstAddress = BaseLoadedAddress`, for each `(Inst, offset)`
pair it computes `Address = Addresses[I] + BaseLoadedAddress` and
`Size = Address - PrevInstAddress` (uint64 arithmetic), records the evaluated
target of every branch instruction, sets `PrevInstAddress = Address`, and
appends `hsa::Instr(Inst, Symbol, Address, Size)`. Returns the record list and
the list of direct-branch target addresses passed to
`addDirectBranchTargetAddress`, in order. -/
def disasmLoop (ctx : DisasmContext) (base : Nat) :
    Nat → List (MCInst × Nat) → List Instr × List Nat
  | _, [] => ([], [])
  | prev, (inst, off) :: rest =>
    let addr := add64 off base
    let size := sub64 addr prev
    let newTargets :=
      if ctx.isBranch inst then
        match ctx.evaluateBranch inst addr size with
        | some t => [t]
        | none => []
      else []
    let r := disasmLoop ctx base addr rest
    (⟨inst, addr, size⟩ :: r.1, newTargets ++ r.2)

/-- `CodeLifter::disassemble`'s per-symbol record construction: the loop run
with `PrevInstAddress` initialised to the base loaded address. -/
def disassembleRecords (ctx : DisasmContext) (base : Nat)
    (pairs : List (MCInst × Nat)) : List Instr :=
  (disasmLoop ctx base base pairs).1

/-- The direct-branch target addresses recorded (via
`addDirectBranchTargetAddress`) while disassembling one symbol. -/
def disassembleTargets (ctx : DisasmContext) (base : Nat)
    (pairs : List (MCInst × Nat)) : List Nat :=
  (disasmLoop ctx base base pairs).2

/-- `CodeLifter::addDirectBranchTargetAddress` /
`DirectBranchTargetLocations`: per-LCO `llvm::DenseSet` of addresses;
inserting the collected targets into the set. Modelled from the spec:
the implementation of `addDirectBranchTargetAddress` is not among the
sources; per its declaration's documentation it records the loaded address
in the per-LCO branch-target set. -/
def insertTargets (s : List Nat) (ts : List Nat) : List Nat := s ++ ts

/-- A context in which no instruction is a branch, used for concrete
evaluation of the record loop. -/
def noBranchCtx : DisasmContext := ⟨fun _ => false, fun _ _ _ => none⟩

/-- C1 (failing-input evaluation): for a symbol of size 8 holding two 4-byte
instructions at offsets 0 and 4, loaded at base 4096, the disassembly loop
produces records whose sizes are `[0, 4]`: the first record's size is 0 (not
strictly positive, and not the distance 4 to the next record), and the sizes
sum to 4, not to the symbol size 8. Each record receives the distance from the
previous record instead of the distance to the next one. -/
theorem disassemble_record_size_shifted :
    disassembleRecords noBranchCtx 4096 [(⟨10, []⟩, 0), (⟨11, []⟩, 4)] =
        [⟨⟨10, []⟩, 4096, 0⟩, ⟨⟨11, []⟩, 4100, 4⟩] ∧
      ((disassembleRecords noBranchCtx 4096
          [(⟨10, []⟩, 0), (⟨11, []⟩, 4)]).map Instr.size).sum = 4 ∧
      ¬ (∀ r ∈ disassembleRecords noBranchCtx 4096
            [(⟨10, []⟩, 0), (⟨11, []⟩, 4)], 0 < r.size) ∧
      (4 : Nat) ≠ 8 := by
  refine ⟨?_, ?_, ?_, by decide⟩
  · simp [disassembleRecords, disasmLoop, add64, sub64, u64Mod, noBranchCtx]
  · simp [disassembleRecords, disasmLoop, add64, sub64, u64Mod, noBranchCtx]
  · intro h
    have := h ⟨⟨10, []⟩, 4096, 0⟩ (by
      simp [disassembleRecords, disasmLoop, add64, sub64, u64Mod, noBranchCtx])
    simp at this

/-- C7: an address is recorded into the direct-branch target collection of a
`disassemble` call if and only if some emitted record's instruction is
classified as a branch and the corrected branch evaluator computes that
address as its target (at the address and size the loop passed it); hence
non-branch instructions and failed evaluations add nothing, and the per-LCO
target set after insertion contains exactly its previous members plus these
targets. -/
theorem disasmLoop_targets_mem (ctx : DisasmContext) (base t : Nat)
    (pairs : List (MCInst × Nat)) (prev : Nat) :
    t ∈ (disasmLoop ctx base prev pairs).2 ↔
      ∃ r ∈ (disasmLoop ctx base prev pairs).1,
        ctx.isBranch r.inst = true ∧
          ctx.evaluateBranch r.inst r.address r.size = some t := by
  induction pairs generalizing prev with
  | nil => simp [disasmLoop]
  | cons hd tl ih =>
    obtain ⟨inst, off⟩ := hd
    rw [disasmLoop]
    simp only [List.mem_append, List.mem_cons]
    constructor
    · intro h
      rcases h with h | h
      · refine ⟨⟨inst, add64 off base, sub64 (add64 off base) prev⟩,
          Or.inl rfl, ?_⟩
        by_cases hb : ctx.isBranch inst
        · simp only [hb, if_true] at h
          rcases he : ctx.evaluateBranch inst (add64 off base)
              (sub64 (add64 off base) prev) with _ | t'
          · simp [he] at h
          · simp only [he, List.mem_singleton] at h
            exact ⟨hb, congrArg some h.symm⟩
        · simp [hb] at h
      · obtain ⟨r, hr, hb, he⟩ := (ih (add64 off base)).mp h
        exact ⟨r, Or.inr hr, hb, he⟩
    · rintro ⟨r, hr | hr, hb, he⟩
      · subst hr
        left
        simp only [hb, if_true, he]
        simp
      · right
        exact (ih (add64 off base)).mpr ⟨r, hr, hb, he⟩

/-- C7: an address is recorded into the direct-branch target collection of a
`disassemble` call if and only if some emitted record's instruction is
classified as a branch and the corrected branch evaluator computes that
address as its target (at the address and size the loop passed it); hence
non-branch instructions and failed evaluations add nothing, and the per-LCO
target set after insertion contains exactly its previous members plus these
targets. -/
theorem direct_branch_targets_recorded (ctx : DisasmContext) (base : Nat)
    (pairs : List (MCInst × Nat)) (s : List Nat) (t : Nat) :
    (t ∈ disassembleTargets ctx base pairs ↔
      ∃ r ∈ disassembleRecords ctx base pairs,
        ctx.isBranch r.inst = true ∧
          ctx.evaluateBranch r.inst r.address r.size = some t) ∧
    (t ∈ insertTargets s (disassembleTargets ctx base pairs) ↔
      t ∈ s ∨ t ∈ disassembleTargets ctx base pairs) :=
  ⟨disasmLoop_targets_mem ctx base t pairs base, by simp [insertTargets]⟩

/-! ## The CodeLifter caches

`MCDisassembledSymbols` and `LiftedKernelSymbols` are `std::unordered_map`s
keyed by (cloned) symbols through `LoadedCodeObjectSymbolHash` /
`LoadedCodeObjectSymbolEqualTo`, i.e. through `operator==` and `hash()`.
They are modelled as association lists looked up through `symbolEq`. -/

/-- Lookup in a symbol-keyed cache, comparing keys with
`LoadedCodeObjectSymbol::operator==` (as the `unordered_map`'s transparent
equal-to functor does). -/
def findEntry {α : Type} :
    List (LoadedCodeObjectSymbol × α) → LoadedCodeObjectSymbol → Option α
  | [], _ => none
  | (k, v) :: rest, s =>
    if symbolEq k s = true then some v else findEntry rest s

/-- Overwrite the value stored under the first key equal to `s`. -/
def setEntry {α : Type} :
    List (LoadedCodeObjectSymbol × α) → LoadedCodeObjectSymbol → α →
      List (LoadedCodeObjectSymbol × α)
  | [], _, _ => []
  | (k, v) :: rest, s, v' =>
    if symbolEq k s = true then (k, v') :: rest else (k, v) :: setEntry rest s v'

theorem findEntry_append {α : Type} (l₁ l₂ : List (LoadedCodeObjectSymbol × α))
    (s : LoadedCodeObjectSymbol) (h : findEntry l₁ s = none) :
    findEntry (l₁ ++ l₂) s = findEntry l₂ s := by
  induction l₁ with
  | nil => simp
  | cons hd tl ih =>
    obtain ⟨k, v⟩ := hd
    by_cases hk : symbolEq k s = true
    · simp [findEntry, hk] at h
    · simp only [findEntry, hk, if_false, List.cons_append] at h ⊢
      exact ih h

theorem findEntry_singleton_clone {α : Type} (s : LoadedCodeObjectSymbol) (v : α) :
    findEntry [(clone s, v)] s = some v := by
  simp [findEntry, clone_eq, symbolEq_refl]

theorem findEntry_setEntry {α : Type} (l : List (LoadedCodeObjectSymbol × α))
    (s : LoadedCodeObjectSymbol) (v : α) (h : (findEntry l s).isSome = true) :
    findEntry (setEntry l s v) s = some v := by
  induction l with
  | nil => simp [findEntry] at h
  | cons hd tl ih =>
    obtain ⟨k, w⟩ := hd
    by_cases hk : symbolEq k s = true
    · simp [setEntry, findEntry, hk]
    · simp only [findEntry, setEntry, hk, if_false] at h ⊢
      exact ih h

/-- The Luthier error taxonomy (spec §7), as a kind. -/
inductive LuthierErrorKind
  | runtimeError
  | targetError
  | decodeError
  | liftError
  | loweringError
  | codegenError
  | loaderError
  | cacheMiss
  | invariantViolation
deriving DecidableEq, Repr

/-- The outcomes of the fallible sub-operations `CodeLifter::disassemble`
invokes, in source order: `getAssociatedObjectFile`,
`getObjectFileTargetTuple`, `isaFromLLVM`, `getLoadedSymbolContents` (whose
success carries the base loaded device address of the symbol's bytes),
`convertToHostEquivalent`, the MC `disassemble(ISA, Code)` (whose success
carries the `(MCInst, offset)` pairs), and `TargetManager::getTargetInfo`
(whose success carries the instruction-info hooks the loop uses). -/
structure DisasmEnv where
  objFile : Except LuthierErrorKind Nat
  targetTuple : Except LuthierErrorKind Nat
  isa : Except LuthierErrorKind Nat
  loadedContents : Except LuthierErrorKind Nat
  hostContents : Except LuthierErrorKind Nat
  mcDisassembly : Except LuthierErrorKind (List (MCInst × Nat))
  targetInfo : Except LuthierErrorKind DisasmContext

/-- `CodeLifter::disassemble` (templated inline member), step for step:
if the symbol is already in `MCDisassembledSymbols`, skip the body; otherwise
run the fallible sub-operations in source order, returning each error as it
arises (`LUTHIER_RETURN_ON_ERROR`); after a successful MC disassembly,
`emplace(Symbol.clone(), empty vector)` — note this happens *before* the
`getTargetInfo` error check — then run the record loop, filling the emplaced
vector. The shared exit returns `*find(&Symbol)->second`. The third component
records whether the MC disassembler was invoked during this call. -/
def disassembleFull (env : DisasmEnv)
    (st : List (LoadedCodeObjectSymbol × List Instr)) (s : LoadedCodeObjectSymbol) :
    Except LuthierErrorKind (List Instr) ×
      List (LoadedCodeObjectSymbol × List Instr) × Bool :=
  match findEntry st s with
  | some cached => (.ok cached, st, false)
  | none =>
    match env.objFile with
    | .error e => (.error e, st, false)
    | .ok _ =>
    match env.targetTuple with
    | .error e => (.error e, st, false)
    | .ok _ =>
    match env.isa with
    | .error e => (.error e, st, false)
    | .ok _ =>
    match env.loadedContents with
    | .error e => (.error e, st, false)
    | .ok base =>
    match env.hostContents with
    | .error e => (.error e, st, false)
    | .ok _ =>
    match env.mcDisassembly with
    | .error e => (.error e, st, true)
    | .ok pairs =>
      let st1 := st ++ [(clone s, [])]
      match env.targetInfo with
      | .error e => (.error e, st1, true)
      | .ok ctx =>
        let st2 := setEntry st1 s (disassembleRecords ctx base pairs)
        ((findEntry st2 s).elim (.error .invariantViolation) .ok, st2, true)

/-- Modelled from the spec: the implementation of `CodeLifter::lift` is not
among the sources (only its declaration); per the spec, lifting a kernel
builds the Lifted Representation, inserts it into the lift cache
`LiftedKernelSymbols` (keyed by the kernel symbol through the same
equality/hash functors) and returns a reference to the cached entry; "The
representation gets cached on the first invocation". Building the LR is
abstracted by `buildLR`; an LR is identified by a `Nat` standing for its
identity. The third component records whether lifting was performed during
this call. -/
def liftKernel (buildLR : LoadedCodeObjectSymbol → Nat)
    (st : List (LoadedCodeObjectSymbol × Nat)) (k : LoadedCodeObjectSymbol) :
    Nat × List (LoadedCodeObjectSymbol × Nat) × Bool :=
  match findEntry st k with
  | some lr => (lr, st, false)
  | none => (buildLR k, st ++ [(clone k, buildLR k)], true)

theorem disassembleFull_hit (env : DisasmEnv)
    (st : List (LoadedCodeObjectSymbol × List Instr)) (s : LoadedCodeObjectSymbol)
    (cached : List Instr) (h : findEntry st s = some cached) :
    disassembleFull env st s = (.ok cached, st, false) := by
  unfold disassembleFull
  rw [h]

theorem liftKernel_hit (buildLR : LoadedCodeObjectSymbol → Nat)
    (st : List (LoadedCodeObjectSymbol × Nat)) (k : LoadedCodeObjectSymbol)
    (lr : Nat) (h : findEntry st k = some lr) :
    liftKernel buildLR st k = (lr, st, false) := by
  unfold liftKernel
  rw [h]

/-- C4: once a `disassemble` call for symbol `s` has succeeded with value `v`,
the cache holds `v` under `s`, and any later call (under any environment)
returns that same cached entry without invoking the disassembler and without
changing the cache; likewise `lift` caches its result on first invocation and
any later call returns the same cached LR without lifting again. -/
theorem lifter_caches_compute_once (env env₂ : DisasmEnv)
    (st : List (LoadedCodeObjectSymbol × List Instr))
    (s : LoadedCodeObjectSymbol) (v : List Instr)
    (buildLR : LoadedCodeObjectSymbol → Nat)
    (lst : List (LoadedCodeObjectSymbol × Nat)) (k : LoadedCodeObjectSymbol)
    (h : (disassembleFull env st s).1 = .ok v) :
    (findEntry (disassembleFull env st s).2.1 s = some v ∧
      disassembleFull env₂ (disassembleFull env st s).2.1 s =
        (.ok v, (disassembleFull env st s).2.1, false)) ∧
    (findEntry (liftKernel buildLR lst k).2.1 k =
        some (liftKernel buildLR lst k).1 ∧
      liftKernel buildLR (liftKernel buildLR lst k).2.1 k =
        ((liftKernel buildLR lst k).1, (liftKernel buildLR lst k).2.1, false)) := by
  constructor
  · have key : findEntry (disassembleFull env st s).2.1 s = some v := by
      rcases hf : findEntry st s with _ | cached
      · rcases h1 : env.objFile with e | a₁
        · simp [disassembleFull, hf, h1] at h
        rcases h2 : env.targetTuple with e | a₂
        · simp [disassembleFull, hf, h1, h2] at h
        rcases h3 : env.isa with e | a₃
        · simp [disassembleFull, hf, h1, h2, h3] at h
        rcases h4 : env.loadedContents with e | base
        · simp [disassembleFull, hf, h1, h2, h3, h4] at h
        rcases h5 : env.hostContents with e | a₅
        · simp [disassembleFull, hf, h1, h2, h3, h4, h5] at h
        rcases h6 : env.mcDisassembly with e | pairs
        · simp [disassembleFull, hf, h1, h2, h3, h4, h5, h6] at h
        rcases h7 : env.targetInfo with e | ctx
        · simp [disassembleFull, hf, h1, h2, h3, h4, h5, h6, h7] at h
        have hmem : findEntry (st ++ [(clone s, [])]) s = some [] := by
          rw [findEntry_append st _ s hf, findEntry_singleton_clone]
        have hset :
            findEntry (setEntry (st ++ [(clone s, [])]) s
                (disassembleRecords ctx base pairs)) s =
              some (disassembleRecords ctx base pairs) :=
          findEntry_setEntry _ s _ (by rw [hmem]; rfl)
        simp only [disassembleFull, hf, h1, h2, h3, h4, h5, h6, h7, hset,
          Option.elim] at h ⊢
        exact congrArg some (Except.ok.inj h)
      · simp only [disassembleFull, hf] at h ⊢
        exact congrArg some (Except.ok.inj h)
    exact ⟨key, disassembleFull_hit env₂ _ s v key⟩
  · rcases hf : findEntry lst k with _ | lr
    · have hins : findEntry (lst ++ [(clone k, buildLR k)]) k = some (buildLR k) := by
        rw [findEntry_append lst _ k hf, findEntry_singleton_clone]
      simp [liftKernel, hf, hins]
    · simp [liftKernel, hf]

/-- A concrete symbol used to evaluate the cache model. -/
def sampleSymbol : LoadedCodeObjectSymbol := ⟨1, 1, ⟨⟨3⟩, 2⟩, .SK_KERNEL, some 4⟩

/-- A concrete environment in which every sub-operation of `disassemble`
succeeds: one 4-byte instruction at offset 0, base address 4096. -/
def allOkEnv : DisasmEnv :=
  ⟨.ok 0, .ok 0, .ok 0, .ok 4096, .ok 0, .ok [(⟨10, []⟩, 0)], .ok noBranchCtx⟩

/-- Witness for C4 at a concrete environment and symbol: the second
`disassemble` call returns the cached records without re-disassembling, the
second `lift` call returns the cached LR without re-lifting. -/
theorem lifter_caches_compute_once_witness :
    disassembleFull allOkEnv
        (disassembleFull allOkEnv [] sampleSymbol).2.1 sampleSymbol =
      (.ok [⟨⟨10, []⟩, 4096, 0⟩],
        (disassembleFull allOkEnv [] sampleSymbol).2.1, false) ∧
    liftKernel (fun _ => 7)
        (liftKernel (fun _ => 7) [] sampleSymbol).2.1 sampleSymbol =
      ((liftKernel (fun _ => 7) [] sampleSymbol).1,
        (liftKernel (fun _ => 7) [] sampleSymbol).2.1, false) :=
  ⟨(lifter_caches_compute_once allOkEnv allOkEnv [] sampleSymbol
      [⟨⟨10, []⟩, 4096, 0⟩] (fun _ => 7) [] sampleSymbol rfl).1.2,
    (lifter_caches_compute_once allOkEnv allOkEnv [] sampleSymbol
      [⟨⟨10, []⟩, 4096, 0⟩] (fun _ => 7) [] sampleSymbol rfl).2.2⟩

/-! ## The error contract (spec §6/§7) against `CodeLifter::disassemble` -/

/-- The error of the first failing sub-operation of a `disassemble` call, in
source order, if any. -/
def firstStepError (env : DisasmEnv) : Option LuthierErrorKind :=
  match env.objFile with
  | .error e => some e
  | .ok _ =>
  match env.targetTuple with
  | .error e => some e
  | .ok _ =>
  match env.isa with
  | .error e => some e
  | .ok _ =>
  match env.loadedContents with
  | .error e => some e
  | .ok _ =>
  match env.hostContents with
  | .error e => some e
  | .ok _ =>
  match env.mcDisassembly with
  | .error e => some e
  | .ok _ =>
  match env.targetInfo with
  | .error e => some e
  | .ok _ => none

/-- A concrete environment in which everything succeeds except
`TargetManager::getTargetInfo`. -/
def targetInfoFailEnv : DisasmEnv :=
  ⟨.ok 0, .ok 0, .ok 0, .ok 4096, .ok 0, .ok [(⟨10, []⟩, 0)],
    .error .targetError⟩

/-- A concrete environment in which the very first sub-operation
(`getAssociatedObjectFile`) fails with a cache miss. -/
def objFileFailEnv : DisasmEnv :=
  ⟨.error .cacheMiss, .ok 0, .ok 0, .ok 4096, .ok 0, .ok [(⟨10, []⟩, 0)],
    .ok noBranchCtx⟩

/-- C8 (counterexample): with every sub-operation succeeding except
`getTargetInfo` — whose error check comes only *after*
`MCDisassembledSymbols.emplace(Symbol.clone(), …)` — a `disassemble` call on
an uncached symbol returns an error, yet the disassembly cache afterwards
holds a (permanently empty) entry for the symbol: an error return with an
observable state change, contradicting "no side effects on failure". -/
theorem disassemble_error_mutates_cache_counterexample :
    (disassembleFull targetInfoFailEnv [] sampleSymbol).1 =
        .error .targetError ∧
      (disassembleFull targetInfoFailEnv [] sampleSymbol).2.1 =
        [(sampleSymbol, [])] ∧
      [(sampleSymbol, ([] : List Instr))] ≠ [] := by
  refine ⟨rfl, rfl, by simp⟩

/-- C8 (amended): every error arising in a sub-operation of `disassemble` is
returned to the caller verbatim (it is the first failing step's error, never
swallowed); an erroring call leaves the caches unchanged — except that when
`getTargetInfo` fails (after a successful MC decode) the call leaves a new
empty entry for the symbol in the disassembly cache. -/
theorem disassemble_error_propagation (env : DisasmEnv)
    (st : List (LoadedCodeObjectSymbol × List Instr))
    (s : LoadedCodeObjectSymbol) (e : LuthierErrorKind)
    (hmiss : findEntry st s = none)
    (h : (disassembleFull env st s).1 = .error e) :
    firstStepError env = some e ∧
      ((disassembleFull env st s).2.1 = st ∨
        (env.targetInfo = .error e ∧
          (disassembleFull env st s).2.1 = st ++ [(clone s, [])])) := by
  rcases h1 : env.objFile with e₁ | a₁
  · have hval : disassembleFull env st s = (.error e₁, st, false) := by
      unfold disassembleFull; rw [hmiss, h1]
    rw [hval] at h
    obtain rfl : e₁ = e := Except.error.inj h
    exact ⟨by unfold firstStepError; rw [h1], Or.inl (by rw [hval])⟩
  rcases h2 : env.targetTuple with e₂ | a₂
  · have hval : disassembleFull env st s = (.error e₂, st, false) := by
      unfold disassembleFull; rw [hmiss, h1, h2]
    rw [hval] at h
    obtain rfl : e₂ = e := Except.error.inj h
    exact ⟨by unfold firstStepError; rw [h1, h2], Or.inl (by rw [hval])⟩
  rcases h3 : env.isa with e₃ | a₃
  · have hval : disassembleFull env st s = (.error e₃, st, false) := by
      unfold disassembleFull; rw [hmiss, h1, h2, h3]
    rw [hval] at h
    obtain rfl : e₃ = e := Except.error.inj h
    exact ⟨by unfold firstStepError; rw [h1, h2, h3], Or.inl (by rw [hval])⟩
  rcases h4 : env.loadedContents with e₄ | base
  · have hval : disassembleFull env st s = (.error e₄, st, false) := by
      unfold disassembleFull; rw [hmiss, h1, h2, h3, h4]
    rw [hval] at h
    obtain rfl : e₄ = e := Except.error.inj h
    exact ⟨by unfold firstStepError; rw [h1, h2, h3, h4], Or.inl (by rw [hval])⟩
  rcases h5 : env.hostContents with e₅ | a₅
  · have hval : disassembleFull env st s = (.error e₅, st, false) := by
      unfold disassembleFull; rw [hmiss, h1, h2, h3, h4, h5]
    rw [hval] at h
    obtain rfl : e₅ = e := Except.error.inj h
    exact ⟨by unfold firstStepError; rw [h1, h2, h3, h4, h5],
      Or.inl (by rw [hval])⟩
  rcases h6 : env.mcDisassembly with e₆ | pairs
  · have hval : disassembleFull env st s = (.error e₆, st, true) := by
      unfold disassembleFull; rw [hmiss, h1, h2, h3, h4, h5, h6]
    rw [hval] at h
    obtain rfl : e₆ = e := Except.error.inj h
    exact ⟨by unfold firstStepError; rw [h1, h2, h3, h4, h5, h6],
      Or.inl (by rw [hval])⟩
  rcases h7 : env.targetInfo with e₇ | ctx
  · have hval : disassembleFull env st s =
        (.error e₇, st ++ [(clone s, [])], true) := by
      unfold disassembleFull; rw [hmiss, h1, h2, h3, h4, h5, h6, h7]
    rw [hval] at h
    obtain rfl : e₇ = e := Except.error.inj h
    exact ⟨by unfold firstStepError; rw [h1, h2, h3, h4, h5, h6, h7],
      Or.inr ⟨rfl, by rw [hval]⟩⟩
  · exfalso
    have hmem : findEntry (st ++ [(clone s, [])]) s = some [] := by
      rw [findEntry_append st _ s hmiss, findEntry_singleton_clone]
    have hset :
        findEntry (setEntry (st ++ [(clone s, [])]) s
            (disassembleRecords ctx base pairs)) s =
          some (disassembleRecords ctx base pairs) :=
      findEntry_setEntry _ s _ (by rw [hmem]; rfl)
    have hval : (disassembleFull env st s).1 =
        .ok (disassembleRecords ctx base pairs) := by
      unfold disassembleFull
      rw [hmiss, h1, h2, h3, h4, h5, h6, h7]
      simp only [hset, Option.elim]
    rw [hval] at h
    exact Except.noConfusion h

/-- Witness for the amended C8 at a concrete failing environment. -/
theorem disassemble_error_propagation_witness :
    firstStepError objFileFailEnv = some .cacheMiss ∧
      ((disassembleFull objFileFailEnv [] sampleSymbol).2.1 = [] ∨
        (objFileFailEnv.targetInfo = .error .cacheMiss ∧
          (disassembleFull objFileFailEnv [] sampleSymbol).2.1 =
            [] ++ [(clone sampleSymbol, [])])) :=
  disassemble_error_propagation objFileFailEnv [] sampleSymbol .cacheMiss rfl rfl

/-! ## Tool executable loader (`luthier/Tooling/ToolExecutableLoader.h`) -/

/-- Update an association list keyed by `Nat`: replace the binding of `k`, or
append it; the shallow counterpart of writing through the iterator returned by
`find`/`emplace` on a `DenseMap`/`unordered_map`. -/
def updateAssoc {α : Type} : List (Nat × α) → Nat → α → List (Nat × α)
  | [], k, v => [(k, v)]
  | (k', v') :: rest, k, v =>
    if k' = k then (k', v) :: rest else (k', v') :: updateAssoc rest k v

theorem lookup_updateAssoc_self {α : Type} (m : List (Nat × α)) (k : Nat) (v : α) :
    (updateAssoc m k v).lookup k = some v := by
  induction m with
  | nil => simp [updateAssoc, List.lookup]
  | cons hd tl ih =>
    obtain ⟨k', v'⟩ := hd
    by_cases hk : k' = k
    · subst hk
      simp [updateAssoc, List.lookup]
    · simp only [updateAssoc, hk, if_false]
      have : (k == k') = false := by
        exact beq_eq_false_iff_ne.mpr (fun hkk => hk hkk.symm)
      simp [List.lookup, beq_eq_false_iff_ne.mpr (fun hkk => hk hkk.symm), ih]

/-- `llvm::StringMap<hsa_executable_symbol_t>::insert({Key, Value})`: inserts
only if the key is not yet present; an existing binding is left unmodified. -/
def stringMapInsert (m : List (String × Nat)) (k : String) (v : Nat) :
    List (String × Nat) :=
  if (m.lookup k).isSome then m else m ++ [(k, v)]

/-- The loader state involved in registering instrumented kernels:
`OriginalToInstrumentedKernelsMap` (original kernel handle → `StringMap` from
preset name to instrumented kernel handle) and
`OriginalExecutablesWithKernelsInstrumented` (original executable handle →
set of instrumented executable handles). -/
structure LoaderState where
  originalToInstrumentedKernelsMap : List (Nat × List (String × Nat))
  originalExecutablesWithKernelsInstrumented : List (Nat × List Nat)
deriving DecidableEq, Repr

/-- `ToolExecutableLoader::insertInstrumentedKernelIntoMap`: creates an entry
for the original kernel if absent, then `StringMap::insert({Preset,
InstrumentedKernel})` into it (which leaves an existing binding for the preset
unchanged); then records the instrumented executable in the original
executable's dependency set. -/
def insertInstrumentedKernelIntoMap (st : LoaderState)
    (originalExecutable originalKernel : Nat) (preset : String)
    (instrumentedExecutable instrumentedKernel : Nat) : LoaderState :=
  let inner :=
    (st.originalToInstrumentedKernelsMap.lookup originalKernel).getD []
  let outer := updateAssoc st.originalToInstrumentedKernelsMap originalKernel
    (stringMapInsert inner preset instrumentedKernel)
  let eset :=
    (st.originalExecutablesWithKernelsInstrumented.lookup
      originalExecutable).getD []
  let eset' :=
    if instrumentedExecutable ∈ eset then eset
    else eset ++ [instrumentedExecutable]
  ⟨outer, updateAssoc st.originalExecutablesWithKernelsInstrumented
    originalExecutable eset'⟩

/-- Modelled from the spec: `ToolExecutableLoader::getInstrumentedKernel`
(its body is not among the sources) "queries the preset map": the
instrumented kernel handle registered under `(OriginalKernel, Preset)`. -/
def getInstrumentedKernel (st : LoaderState) (k : Nat) (preset : String) :
    Option Nat :=
  ((st.originalToInstrumentedKernelsMap.lookup k).getD []).lookup preset

/-- C2: once an instrumented kernel `s` is registered under
`(originalKernel, preset)`, any later registration attempt for the same pair —
with any instrumented kernel, any executables — leaves the mapping unchanged:
`getInstrumentedKernel` still returns `s` (and, being a pure query of the
preset map, returns the same symbol across calls on an unchanged state). -/
theorem preset_registration_at_most_once (st : LoaderState)
    (k s : Nat) (p : String) (e' ie' ik' : Nat)
    (h : getInstrumentedKernel st k p = some s) :
    getInstrumentedKernel
        (insertInstrumentedKernelIntoMap st e' k p ie' ik') k p = some s := by
  unfold getInstrumentedKernel insertInstrumentedKernelIntoMap
  rw [lookup_updateAssoc_self]
  unfold getInstrumentedKernel at h
  have hsome :
      (((st.originalToInstrumentedKernelsMap.lookup k).getD
        []).lookup p).isSome = true := by
    rw [h]; rfl
  unfold stringMapInsert
  rw [if_pos hsome]
  exact h

/-- Witness for C2: register `(kernel 2, preset "p") → kernel 4`; a second
registration of kernel 9 under the same pair leaves the map returning 4. -/
theorem preset_registration_at_most_once_witness :
    getInstrumentedKernel
        (insertInstrumentedKernelIntoMap
          (insertInstrumentedKernelIntoMap ⟨[], []⟩ 1 2 "p" 3 4) 8 2 "p" 7 9)
        2 "p" = some 4 :=
  preset_registration_at_most_once
    (insertInstrumentedKernelIntoMap ⟨[], []⟩ 1 2 "p" 3 4) 2 4 "p" 8 7 9 rfl

/-! ## Cache invalidation on executable destruction -/

/-- The caches the executable-destroy callback must invalidate: the
`LoadedCodeObjectCache`'s `LCOCache` (LCO handle → cached code object), the
lifter's `MCDisassembledSymbols` and its `LiftedKernelSymbols`. -/
structure InvalidationState where
  lcoCache : List (Nat × Nat)
  disasmEntries : List (LoadedCodeObjectSymbol × List Instr)
  liftEntries : List (LoadedCodeObjectSymbol × Nat)

/-- Modelled from the spec: the bodies of
`LoadedCodeObjectCache::hsaExecutableDestroyWrapper` and
`CodeLifter::invalidateCachedExecutableItems` are not among the sources (only
their declarations); per the spec, the executable-destroy callback for `E`
"invalidates all LCOs belonging to that executable" and drops every cached
disassembly and Lifted Representation whose symbols belong to those LCOs.
`lcoExec` gives the executable owning each LCO. -/
def executableDestroy (lcoExec : Nat → Nat) (st : InvalidationState)
    (e : Nat) : InvalidationState :=
  ⟨st.lcoCache.filter (fun p => !(lcoExec p.1 == e)),
    st.disasmEntries.filter (fun p => !(lcoExec p.1.backingLCO == e)),
    st.liftEntries.filter (fun p => !(lcoExec p.1.backingLCO == e))⟩

/-- `LoadedCodeObjectCache::isCached`. -/
def isCached (st : InvalidationState) (lco : Nat) : Bool :=
  (st.lcoCache.lookup lco).isSome

/-- `LoadedCodeObjectCache::getAssociatedCodeObject`: the cached code object,
or a cache-miss error if the LCO has been destroyed. -/
def getAssociatedCodeObject (st : InvalidationState) (lco : Nat) :
    Except LuthierErrorKind Nat :=
  match st.lcoCache.lookup lco with
  | some co => .ok co
  | none => .error .cacheMiss

theorem lookup_filter_ne_none {α : Type} (l : List (Nat × α)) (f : Nat → Nat)
    (e lco : Nat) (h : f lco = e) :
    (l.filter (fun p => !(f p.1 == e))).lookup lco = none := by
  induction l with
  | nil => simp
  | cons hd tl ih =>
    obtain ⟨k, v⟩ := hd
    by_cases hk : k = lco
    · subst hk
      simp [List.filter, h, ih]
    · by_cases hf : f k = e
      · simp [List.filter, hf, ih]
      · simp only [List.filter]
        have : (!(f k == e)) = true := by
          simp [hf]
        rw [this]
        have : (lco == k) = false := beq_eq_false_iff_ne.mpr
          (fun hkk => hk hkk.symm)
        simp [List.lookup, this, ih]

/-- C3: after the executable-destroy callback for executable `e` completes,
every LCO of `e` is no longer cached (`isCached = false`), no disassembly or
Lifted-Representation cache entry keyed by a symbol of those LCOs remains, and
a later cache query for such an LCO fails with a cache-miss error. -/
theorem executable_destroy_invalidates (lcoExec : Nat → Nat)
    (st : InvalidationState) (e lco : Nat) (h : lcoExec lco = e) :
    isCached (executableDestroy lcoExec st e) lco = false ∧
      (∀ p ∈ (executableDestroy lcoExec st e).disasmEntries,
        lcoExec p.1.backingLCO ≠ e) ∧
      (∀ p ∈ (executableDestroy lcoExec st e).liftEntries,
        lcoExec p.1.backingLCO ≠ e) ∧
      getAssociatedCodeObject (executableDestroy lcoExec st e) lco =
        .error .cacheMiss := by
  refine ⟨?_, ?_, ?_, ?_⟩
  · unfold isCached executableDestroy
    rw [lookup_filter_ne_none st.lcoCache lcoExec e lco h]
    rfl
  · intro p hp
    have := List.of_mem_filter hp
    simpa using this
  · intro p hp
    have := List.of_mem_filter hp
    simpa using this
  · unfold getAssociatedCodeObject executableDestroy
    rw [lookup_filter_ne_none st.lcoCache lcoExec e lco h]

/-- Witness for C3 at a concrete state: destroying executable 5 (owning LCO 5
under `lcoExec = id`) uncaches LCO 5 and makes its query a cache miss. -/
theorem executable_destroy_invalidates_witness :
    isCached (executableDestroy id ⟨[(5, 77)], [(sampleSymbol, [])],
        [(sampleSymbol, 7)]⟩ 5) 5 = false ∧
      (∀ p ∈ (executableDestroy id ⟨[(5, 77)], [(sampleSymbol, [])],
          [(sampleSymbol, 7)]⟩ 5).disasmEntries, id p.1.backingLCO ≠ 5) ∧
      (∀ p ∈ (executableDestroy id ⟨[(5, 77)], [(sampleSymbol, [])],
          [(sampleSymbol, 7)]⟩ 5).liftEntries, id p.1.backingLCO ≠ 5) ∧
      getAssociatedCodeObject (executableDestroy id ⟨[(5, 77)],
          [(sampleSymbol, [])], [(sampleSymbol, 7)]⟩ 5) 5 =
        .error .cacheMiss :=
  executable_destroy_invalidates id
    ⟨[(5, 77)], [(sampleSymbol, [])], [(sampleSymbol, 7)]⟩ 5 5 rfl

/-! ## Instrumentation task (`luthier/Tooling/InstrumentationTask.h`) -/

/-- One argument of a hook invocation:
`std::variant<llvm::Constant *, llvm::MCRegister>`. -/
inductive HookArg
  | constant (v : Nat)
  | reg (r : Nat)
deriving DecidableEq, Repr

/-- `InstrumentationTask::hook_invocation_descriptor`: the resolved hook name
and the argument list. -/
structure HookInvocationDescriptor where
  hookName : String
  args : List HookArg
deriving DecidableEq, Repr

/-- `InstrumentationTask::hook_insertion_tasks`: a map from a
`llvm::MachineInstr` (by identity, modelled as a `Nat`) to the ordered list of
hooks (plus arguments) to be inserted before it. -/
def HookInsertionTasks : Type := List (Nat × List HookInvocationDescriptor)

/-- The queue of descriptors registered for one machine instruction. -/
def lookupTasks (t : HookInsertionTasks) (mi : Nat) :
    List HookInvocationDescriptor :=
  ((t : List (Nat × List HookInvocationDescriptor)).lookup mi).getD []

/-- Append a descriptor to the queue for `mi` (the `SmallVector` push onto the
`DenseMap` entry, created empty if absent). -/
def appendTask (t : HookInsertionTasks) (mi : Nat)
    (d : HookInvocationDescriptor) : HookInsertionTasks :=
  updateAssoc t mi (lookupTasks t mi ++ [d])

/-- Modelled from the spec: the body of
`InstrumentationTask::insertHookBefore` is not among the sources (only its
declaration); per the spec, the operation "validates that MI belongs to the
task's LR, resolves hook-handle through the IM to a hook name, appends a
descriptor to the queue for MI, and returns". The task exposes no other
mutating operation — in particular no `insertHookAfter`. -/
def insertHookBefore (belongsToLR : Nat → Bool)
    (resolveHook : Nat → Option String) (t : HookInsertionTasks) (mi : Nat)
    (hookHandle : Nat) (args : List HookArg) :
    Except LuthierErrorKind HookInsertionTasks :=
  if belongsToLR mi then
    match resolveHook hookHandle with
    | some name => .ok (appendTask t mi ⟨name, args⟩)
    | none => .error .invariantViolation
  else .error .invariantViolation

/-- One element of the materialised instruction stream: either an injected
hook call-site or an original machine instruction. -/
inductive MatItem
  | hook (d : HookInvocationDescriptor)
  | orig (mi : Nat)
deriving DecidableEq, Repr

/-- Modelled from the spec: hook-call materialisation in the code generator
(not among the sources): "For every queued insertion: … create a call-site to
the clone of the hook immediately before the target MIR instruction"; the
descriptors queued for one instruction are emitted in queue order, each
strictly before the instruction. -/
def materializeHooks (t : HookInsertionTasks) (program : List Nat) :
    List MatItem :=
  program.flatMap
    (fun mi => (lookupTasks t mi).map MatItem.hook ++ [MatItem.orig mi])

theorem lookup_updateAssoc_other {α : Type} (m : List (Nat × α)) (k k' : Nat)
    (v : α) (h : k' ≠ k) : (updateAssoc m k v).lookup k' = m.lookup k' := by
  induction m with
  | nil =>
    simp [updateAssoc, List.lookup, beq_eq_false_iff_ne.mpr h]
  | cons hd tl ih =>
    obtain ⟨k₀, v₀⟩ := hd
    by_cases hk : k₀ = k
    · subst hk
      simp [updateAssoc, List.lookup, beq_eq_false_iff_ne.mpr h]
    · simp only [updateAssoc, hk, if_false]
      by_cases hk' : k₀ = k'
      · subst hk'
        simp [List.lookup]
      · have : (k' == k₀) = false := beq_eq_false_iff_ne.mpr
          (fun hkk => hk' hkk.symm)
        simp [List.lookup, this, ih]

/-- C5: a successful `insertHookBefore(MI, hook, args)` appends exactly one
descriptor — carrying the resolved hook name — to `MI`'s queue, leaving every
other instruction's queue unchanged; and in the materialised stream the
descriptors queued for `MI` appear contiguously, in enqueue order, immediately
and strictly before `MI`. -/
theorem hook_insertion_appends_and_orders (belongsToLR : Nat → Bool)
    (resolveHook : Nat → Option String) (t t' : HookInsertionTasks)
    (mi hookHandle : Nat) (args : List HookArg) (pre post : List Nat)
    (h : insertHookBefore belongsToLR resolveHook t mi hookHandle args =
      .ok t') :
    (∃ name, resolveHook hookHandle = some name ∧
        lookupTasks t' mi = lookupTasks t mi ++ [⟨name, args⟩]) ∧
      (∀ mi', mi' ≠ mi → lookupTasks t' mi' = lookupTasks t mi') ∧
      materializeHooks t' (pre ++ mi :: post) =
        materializeHooks t' pre ++
          ((lookupTasks t' mi).map MatItem.hook ++ [MatItem.orig mi]) ++
          materializeHooks t' post := by
  have hval : ∃ name, resolveHook hookHandle = some name ∧
      t' = appendTask t mi ⟨name, args⟩ := by
    unfold insertHookBefore at h
    by_cases hb : belongsToLR mi
    · rw [if_pos hb] at h
      rcases hr : resolveHook hookHandle with _ | name
      · rw [hr] at h; exact Except.noConfusion h
      · rw [hr] at h
        exact ⟨name, rfl, (Except.ok.inj h).symm⟩
    · rw [if_neg hb] at h; exact Except.noConfusion h
  obtain ⟨name, hr, rfl⟩ := hval
  refine ⟨⟨name, hr, ?_⟩, ?_, ?_⟩
  · unfold lookupTasks appendTask
    rw [lookup_updateAssoc_self]
    rfl
  · intro mi' hne
    unfold lookupTasks appendTask
    rw [lookup_updateAssoc_other _ _ _ _ hne]
  · unfold materializeHooks
    rw [List.flatMap_append, List.flatMap_cons]
    simp only [List.append_assoc]

/-- Witness for C5 at a concrete queue: inserting hook handle 9 (resolving to
`"h"`) before instruction 1 in the program `[0, 1, 2]`. -/
theorem hook_insertion_appends_and_orders_witness :
    (∃ name, (fun _ : Nat => some "h") 9 = some name ∧
        lookupTasks (appendTask ([] : HookInsertionTasks) 1 ⟨"h", []⟩) 1 =
          lookupTasks ([] : HookInsertionTasks) 1 ++ [⟨name, []⟩]) ∧
      (∀ mi', mi' ≠ 1 →
        lookupTasks (appendTask ([] : HookInsertionTasks) 1 ⟨"h", []⟩) mi' =
          lookupTasks ([] : HookInsertionTasks) mi') ∧
      materializeHooks (appendTask ([] : HookInsertionTasks) 1 ⟨"h", []⟩)
          ([0] ++ 1 :: [2]) =
        materializeHooks (appendTask ([] : HookInsertionTasks) 1 ⟨"h", []⟩)
            [0] ++
          ((lookupTasks (appendTask ([] : HookInsertionTasks) 1
              ⟨"h", []⟩) 1).map MatItem.hook ++ [MatItem.orig 1]) ++
          materializeHooks (appendTask ([] : HookInsertionTasks) 1
            ⟨"h", []⟩) [2] :=
  hook_insertion_appends_and_orders (fun _ => true) (fun _ => some "h")
    [] (appendTask [] 1 ⟨"h", []⟩) 1 9 [] [0] [2] rfl

/-! ## Dispatch-packet rewriting (`luthier::overrideWithInstrumented`) -/

/-- `hsa_kernel_dispatch_packet_t`, field for field. -/
structure KernelDispatchPacket where
  header : Nat
  setup : Nat
  workgroupSizeX : Nat
  workgroupSizeY : Nat
  workgroupSizeZ : Nat
  gridSizeX : Nat
  gridSizeY : Nat
  gridSizeZ : Nat
  privateSegmentSize : Nat
  groupSegmentSize : Nat
  kernelObject : Nat
  kernargAddress : Nat
  completionSignal : Nat
deriving DecidableEq, Repr

/-- Modelled from the spec: the body of `luthier::overrideWithInstrumented`
is not among the sources (only its declaration); per the spec, the operation
"in-place, rewrite[s] the packet's kernel-object pointer to the instrumented
kernel-descriptor, and widen[s] `private_segment_size` to the instrumented
metadata value if larger". `kd` is the instrumented kernel-descriptor address
and `pss` the instrumented metadata private-segment size. -/
def rewritePacket (kd pss : Nat) (p : KernelDispatchPacket) :
    KernelDispatchPacket :=
  { p with
    kernelObject := kd
    privateSegmentSize :=
      if pss > p.privateSegmentSize then pss else p.privateSegmentSize }

/-- Modelled from the spec: `overrideWithInstrumented(Packet, Preset)` looks
up the instrumented kernel registered for the packet's kernel under `Preset`
in the loader's preset map (failing if the kernel is not instrumented under
that preset), then rewrites the packet; `kdOf` and `pssOf` give the
kernel-descriptor address and metadata private-segment size of an instrumented
kernel handle. -/
def overrideWithInstrumented (st : LoaderState) (kdOf pssOf : Nat → Nat)
    (origKernel : Nat) (preset : String) (p : KernelDispatchPacket) :
    Except LuthierErrorKind KernelDispatchPacket :=
  match getInstrumentedKernel st origKernel preset with
  | none => .error .loaderError
  | some ik => .ok (rewritePacket (kdOf ik) (pssOf ik) p)

theorem rewritePacket_idem (kd pss : Nat) (p : KernelDispatchPacket) :
    rewritePacket kd pss (rewritePacket kd pss p) = rewritePacket kd pss p := by
  unfold rewritePacket
  by_cases hgt : pss > p.privateSegmentSize
  · simp [hgt]
  · simp [hgt]

/-- C6: for a packet whose kernel is instrumented under the preset, a second
application of `overrideWithInstrumented` returns a packet identical, field
for field, to the result of the first application: the kernel-object pointer
is rewritten to the same descriptor, and the already-widened
private-segment size is not widened further. -/
theorem override_with_instrumented_idempotent (st : LoaderState)
    (kdOf pssOf : Nat → Nat) (k : Nat) (preset : String)
    (p q : KernelDispatchPacket)
    (h : overrideWithInstrumented st kdOf pssOf k preset p = .ok q) :
    overrideWithInstrumented st kdOf pssOf k preset q = .ok q := by
  unfold overrideWithInstrumented at h ⊢
  rcases hik : getInstrumentedKernel st k preset with _ | ik
  · rw [hik] at h; exact Except.noConfusion h
  · rw [hik] at h
    obtain rfl : rewritePacket (kdOf ik) (pssOf ik) p = q := Except.ok.inj h
    exact congrArg Except.ok (rewritePacket_idem _ _ _)

/-- Witness for C6: register kernel 2 under preset `"p"` as kernel 4, then
rewrite a concrete dispatch packet twice; the second rewrite returns the first
result unchanged. -/
theorem override_with_instrumented_idempotent_witness :
    overrideWithInstrumented
        (insertInstrumentedKernelIntoMap ⟨[], []⟩ 1 2 "p" 3 4)
        (fun ik => 100 + ik) (fun ik => 2 * ik) 2 "p"
        (rewritePacket 104 8 ⟨0, 0, 1, 1, 1, 1, 1, 1, 5, 0, 77, 0, 0⟩) =
      .ok (rewritePacket 104 8 ⟨0, 0, 1, 1, 1, 1, 1, 1, 5, 0, 77, 0, 0⟩) :=
  override_with_instrumented_idempotent
    (insertInstrumentedKernelIntoMap ⟨[], []⟩ 1 2 "p" 3 4)
    (fun ik => 100 + ik) (fun ik => 2 * ik) 2 "p"
    ⟨0, 0, 1, 1, 1, 1, 1, 1, 5, 0, 77, 0, 0⟩
    (rewritePacket 104 8 ⟨0, 0, 1, 1, 1, 1, 1, 1, 5, 0, 77, 0, 0⟩) rfl

end Luthier
